import Mathlib

/-! Adjustable clock (`core/aclock/aclock.go`).

A shallow embedding of package `aclock`: the process-wide `offset`, the
operations `AddOffset`, `Now`, `NowWithOffset`, and the `Clock` wrapper with
`Set`, `Sync`, `Time` and `Unix`.

Go's `int64` (and `time.Duration`, which is an `int64`) is modelled as `Int`
with explicit wrap-around; a value of that type is an `Int` satisfying
`isInt64`.
-/

namespace aclock

/-! ## Machine integers -/

/-- Smallest `int64`. -/
def minInt64 : Int := -9223372036854775808

/-- Largest `int64`, which is also the largest `time.Duration`. -/
def maxInt64 : Int := 9223372036854775807

/-- Range predicate of Go's `int64`. -/
def isInt64 (x : Int) : Prop := minInt64 ≤ x ∧ x ≤ maxInt64

instance (x : Int) : Decidable (isInt64 x) := by
  unfold isInt64; infer_instance

/-- Two's-complement reduction of an exact integer to `int64`: what Go's
signed 64-bit arithmetic yields for a result whose exact value is `x`. -/
def wrap64 (x : Int) : Int :=
  (x + 9223372036854775808) % 18446744073709551616 - 9223372036854775808

/-- Go's conversion `uint64(x)` of an `int64`. -/
def toUint64 (x : Int) : Nat := (x % 18446744073709551616).toNat

/-! ## Global offset -/

/-- Message of the error returned for a negative argument. -/
def errNegative : String := "aclock: duration for offset cannot be negative"

/-- Message of the error returned when the offset would overflow. -/
def errOverflow : String := "aclock: offset overflow"

/-- Result of `AddOffset`: the two return values and the value of the global
`offset` after the call. An `error` is `none` for `nil` and `some msg` for
`errors.New(msg)`. -/
structure AddOffsetResult where
  value : Int
  err : Option String
  offset : Int
  deriving DecidableEq, Repr

/-- `AddOffset(d)` run with the global `offset` holding `offset`. -/
def AddOffset (offset d : Int) : AddOffsetResult :=
  if d < 0 then
    { value := 0, err := some errNegative, offset := offset }
  else if wrap64 (offset + d) < offset then
    { value := 0, err := some errOverflow, offset := offset }
  else
    { value := wrap64 (offset + d), err := none, offset := wrap64 (offset + d) }

/-- Global offset after a sequence of `AddOffset` calls, made in list order. -/
def runAddOffset (offset : Int) : List Int → Int
  | [] => offset
  | d :: ds => runAddOffset (AddOffset offset d).offset ds

/-! ## The standard library's `time.Time`

Package `time` belongs to the Go distribution, not to this repository. Its
`Time` is modelled by the wall-clock instant it denotes: a signed 64-bit count
of seconds since January 1 of year 1 and a nanosecond part. The monotonic
reading and the location pointer that a `time.Time` also carries influence
none of `Add`'s wall-clock result, `Unix` or `Before`, and are left out. -/

/-- Wall-clock content of a `time.Time`. -/
structure Time where
  sec : Int
  nsec : Int
  deriving DecidableEq, Repr

/-- Well-formed `time.Time`: `sec` is an `int64`, `nsec` lies in
`0..999999999`. -/
def Time.Valid (t : Time) : Prop :=
  isInt64 t.sec ∧ 0 ≤ t.nsec ∧ t.nsec ≤ 999999999

instance (t : Time) : Decidable t.Valid := by
  unfold Time.Valid; infer_instance

/-- Seconds from January 1 of year 1 to January 1, 1970 (`unixToInternal`). -/
def unixToInternal : Int := 62135596800

/-- Package function `time.Unix(sec, nsec)`. -/
def time.Unix (sec nsec : Int) : Time :=
  if nsec < 0 ∨ nsec ≥ 1000000000 then
    let n := Int.tdiv nsec 1000000000
    let sec1 := wrap64 (sec + n)
    let nsec1 := nsec - n * 1000000000
    if nsec1 < 0 then
      { sec := wrap64 (wrap64 (sec1 - 1) + unixToInternal), nsec := nsec1 + 1000000000 }
    else
      { sec := wrap64 (sec1 + unixToInternal), nsec := nsec1 }
  else
    { sec := wrap64 (sec + unixToInternal), nsec := nsec }

/-- The Unix epoch, `time.Unix(0, 0)`. -/
def epoch : Time := time.Unix 0 0

/-- Method `Time.Unix`: `t.sec() + internalToUnix`, in `int64`. -/
def Time.Unix (t : Time) : Int := wrap64 (t.sec - unixToInternal)

/-- Method `Time.Before`, on wall-clock content. -/
def Time.Before (t u : Time) : Bool :=
  decide (t.sec < u.sec) || (decide (t.sec = u.sec) && decide (t.nsec < u.nsec))

/-- Method `Time.After`, on wall-clock content. -/
def Time.After (t u : Time) : Bool :=
  decide (t.sec > u.sec) || (decide (t.sec = u.sec) && decide (t.nsec > u.nsec))

/-- Helper `addSec` of `Time.Add`: adds `d` seconds to the second count `ext`,
saturating when the `int64` sum overflows. -/
def addSec (ext d : Int) : Int :=
  let sum := wrap64 (ext + d)
  if decide (sum > ext) = decide (d > 0) then sum
  else if d > 0 then maxInt64
  else -maxInt64

/-- Method `Time.Add(d)` for a duration `d` in nanoseconds; `/` and `%` of Go
truncate towards zero. -/
def Time.Add (t : Time) (d : Int) : Time :=
  let dsec := Int.tdiv d 1000000000
  let nsec := t.nsec + Int.tmod d 1000000000
  if nsec ≥ 1000000000 then
    { sec := addSec t.sec (dsec + 1), nsec := nsec - 1000000000 }
  else if nsec < 0 then
    { sec := addSec t.sec (dsec - 1), nsec := nsec + 1000000000 }
  else
    { sec := addSec t.sec dsec, nsec := nsec }

/-- Exact nanosecond count of an instant since January 1 of year 1. -/
def Time.nanos (t : Time) : Int := t.sec * 1000000000 + t.nsec

/-! ## Package `aclock` -/

/-- The exported `MaxTime = time.Unix(1<<63-62135596801, 0)`. -/
def MaxTime : Time := time.Unix (9223372036854775808 - 62135596801) 0

/-- The struct `Clock`. -/
structure Clock where
  faked : Bool
  time : Time
  deriving DecidableEq, Repr

/-- Zero value of `Clock` (`var c Clock`). -/
def Clock.zero : Clock := { faked := false, time := { sec := 0, nsec := 0 } }

/-- `c.Set(time)`: the clock after the call. -/
def Clock.Set (c : Clock) (time : Time) : Clock :=
  { c with faked := true, time := time }

/-- `c.Sync()`: the clock after the call. -/
def Clock.Sync (c : Clock) : Clock :=
  { c with faked := false }

/-- `c.Time()`, where `sysNow` is what `time.Now()` reads during the call and
`offset` is the global offset. -/
def Clock.Time (c : Clock) (sysNow : Time) (offset : Int) : Time :=
  if c.faked then c.time else sysNow.Add offset

/-- `c.Unix()`. -/
def Clock.Unix (c : Clock) (sysNow : aclock.Time) (offset : Int) : Nat :=
  let unix := (c.Time sysNow offset).Unix
  let unix := if unix < 0 then 0 else unix
  toUint64 unix

/-- `Now()`. -/
def Now (sysNow : Time) (offset : Int) : Time := sysNow.Add offset

/-- `NowWithOffset()`. -/
def NowWithOffset (sysNow : Time) (offset : Int) : Time × Int :=
  (sysNow.Add offset, offset)

/-! ## The package as a state machine

The state is the global `offset` together with the clocks a program owns,
addressed by number; every clock starts as the zero value. -/

/-- Program state. -/
structure World where
  offset : Int
  clocks : Nat → Clock

/-- State at process start. -/
def World.init : World := { offset := 0, clocks := fun _ => Clock.zero }

/-- One call into the package. -/
inductive Call
  | AddOffset (d : Int)
  | Now
  | NowWithOffset
  | Set (c : Nat) (t : aclock.Time)
  | Sync (c : Nat)
  | Time (c : Nat)
  | Unix (c : Nat)
  deriving DecidableEq, Repr

/-- What a call returns. -/
inductive Ret
  | durationErr (value : Int) (err : Option String)
  | instant (t : Time)
  | instantDuration (t : Time) (d : Int)
  | uint64 (n : Nat)
  | unit
  deriving DecidableEq, Repr

/-- Replaces clock `i`. -/
def World.setClock (w : World) (i : Nat) (c : Clock) : World :=
  { w with clocks := fun j => if j = i then c else w.clocks j }

/-- Runs one call, `sysNow` being the system-clock reading during it. -/
def step (w : World) (sysNow : Time) : Call → Ret × World
  | .AddOffset d =>
    let r := AddOffset w.offset d
    (.durationErr r.value r.err, { w with offset := r.offset })
  | .Now => (.instant (Now sysNow w.offset), w)
  | .NowWithOffset =>
    let r := NowWithOffset sysNow w.offset
    (.instantDuration r.1 r.2, w)
  | .Set c t => (.unit, w.setClock c ((w.clocks c).Set t))
  | .Sync c => (.unit, w.setClock c (w.clocks c).Sync)
  | .Time c => (.instant ((w.clocks c).Time sysNow w.offset), w)
  | .Unix c => (.uint64 ((w.clocks c).Unix sysNow w.offset), w)

/-- State after a sequence of calls, each paired with its system-clock
reading. -/
def exec (w : World) : List (Time × Call) → World
  | [] => w
  | e :: es => exec (step w e.1 e.2).2 es

/-- Values returned by a sequence of calls. -/
def trace (w : World) : List (Time × Call) → List Ret
  | [] => []
  | e :: es => (step w e.1 e.2).1 :: trace (step w e.1 e.2).2 es

/-- Value returned by the last successful `AddOffset` among `rs`, or `dflt`
when there is none. -/
def lastAddOffset (dflt : Int) : List Ret → Int
  | [] => dflt
  | .durationErr v none :: rs => lastAddOffset v rs
  | _ :: rs => lastAddOffset dflt rs

/-- Whether a call is `Set` or `Sync` on clock `c`. -/
def Call.repins (c : Nat) : Call → Bool
  | .Set i _ => decide (i = c)
  | .Sync i => decide (i = c)
  | _ => false

/-! ## Lemmas on wrap-around -/

theorem wrap64_isInt64 (x : Int) : isInt64 (wrap64 x) := by
  unfold isInt64 wrap64 minInt64 maxInt64
  omega

theorem wrap64_of_isInt64 {x : Int} (h : isInt64 x) : wrap64 x = x := by
  unfold isInt64 minInt64 maxInt64 at h
  unfold wrap64
  omega

/-- When `d ≥ 0` and the exact sum is an `int64`, both
guards of `AddOffset` are passed and the exact sum is stored and returned. -/
theorem AddOffset_of_fits {o d : Int} (hd : 0 ≤ d) (hfit : isInt64 (o + d)) :
    AddOffset o d = { value := o + d, err := none, offset := o + d } := by
  have hw : wrap64 (o + d) = o + d := wrap64_of_isInt64 hfit
  have h1 : ¬ d < 0 := by omega
  have h2 : ¬ o + d < o := by omega
  unfold AddOffset
  rw [hw, if_neg h1, if_neg h2]

theorem AddOffset_offset_ge (o d : Int) : o ≤ (AddOffset o d).offset := by
  unfold AddOffset
  split
  · exact le_refl o
  · split
    · exact le_refl o
    · show o ≤ wrap64 (o + d)
      omega

theorem AddOffset_offset_isInt64 {o : Int} (d : Int) (ho : isInt64 o) :
    isInt64 (AddOffset o d).offset := by
  unfold AddOffset
  split
  · exact ho
  · split
    · exact ho
    · exact wrap64_isInt64 _

theorem runAddOffset_isInt64 (ds : List Int) :
    ∀ o : Int, isInt64 o → isInt64 (runAddOffset o ds) := by
  induction ds with
  | nil => intro o ho; exact ho
  | cons d ds ih =>
    intro o ho
    exact ih _ (AddOffset_offset_isInt64 d ho)

theorem errNegative_ne_errOverflow : some errNegative ≠ some errOverflow := by
  decide

theorem runAddOffset_ge (ds : List Int) : ∀ o : Int, o ≤ runAddOffset o ds := by
  induction ds with
  | nil => intro o; exact le_refl o
  | cons d ds ih =>
    intro o
    exact le_trans (AddOffset_offset_ge o d) (ih _)

/-! ## Lemmas on `time.Time` -/

theorem addSec_exact {ext d : Int} (hs : isInt64 (ext + d)) :
    addSec ext d = ext + d := by
  have hw : wrap64 (ext + d) = ext + d := wrap64_of_isInt64 hs
  unfold addSec
  simp only [hw]
  have hc : decide (ext + d > ext) = decide (d > 0) := by
    apply decide_eq_decide.mpr
    constructor <;> intro h <;> omega
  rw [if_pos hc]

theorem tdiv_tmod_bounds (d : Int) :
    d = 1000000000 * Int.tdiv d 1000000000 + Int.tmod d 1000000000 ∧
    -1000000000 < Int.tmod d 1000000000 ∧ Int.tmod d 1000000000 < 1000000000 ∧
    (0 ≤ d → 0 ≤ Int.tmod d 1000000000) ∧ (d ≤ 0 → Int.tmod d 1000000000 ≤ 0) := by
  have hsplit := Int.tdiv_add_tmod d 1000000000
  rcases le_total 0 d with hd | hd
  · have h1 := Int.tmod_nonneg 1000000000 hd
    have h2 := Int.tmod_lt_of_pos d (show (0 : Int) < 1000000000 by decide)
    refine ⟨hsplit.symm, by omega, h2, fun _ => h1, fun h => ?_⟩
    have : d = 0 := le_antisymm h hd
    subst this
    decide
  · have hq : Int.tdiv d 1000000000 = -((-d) / 1000000000) := by
      have h := Int.neg_tdiv (-d) 1000000000
      rw [neg_neg] at h
      rw [h, Int.tdiv_eq_ediv (by omega) (by decide)]
    have hm := Int.emod_add_ediv (-d) 1000000000
    have hlt := Int.emod_lt_of_pos (-d) (show (0 : Int) < 1000000000 by decide)
    have hnn := Int.emod_nonneg (-d) (show (1000000000 : Int) ≠ 0 by decide)
    refine ⟨hsplit.symm, by omega, by omega, fun h => by omega, fun _ => by omega⟩

/-- Within the representable range `Time.Add` is exact: the result denotes the
instant `d` nanoseconds after `t`. -/
theorem Time.Add_nanos (t : Time) (d : Int) (ht : t.Valid)
    (hlo : minInt64 * 1000000000 ≤ t.nanos + d)
    (hhi : t.nanos + d ≤ maxInt64 * 1000000000 + 999999999) :
    (t.Add d).nanos = t.nanos + d ∧ (t.Add d).Valid := by
  obtain ⟨hsplit, hr1, hr2, -, -⟩ := tdiv_tmod_bounds d
  obtain ⟨-, hn0, hn1⟩ := ht
  unfold Time.nanos at hlo hhi
  unfold minInt64 at hlo
  unfold maxInt64 at hhi
  unfold Time.Add
  by_cases h1 : t.nsec + Int.tmod d 1000000000 ≥ 1000000000
  · have hsec : addSec t.sec (Int.tdiv d 1000000000 + 1) =
        t.sec + (Int.tdiv d 1000000000 + 1) :=
      addSec_exact (by unfold isInt64 minInt64 maxInt64; omega)
    simp only [if_pos h1, hsec, Time.nanos, Time.Valid]
    refine ⟨by omega, ?_, by omega, by omega⟩
    unfold isInt64 minInt64 maxInt64
    omega
  · by_cases h2 : t.nsec + Int.tmod d 1000000000 < 0
    · have hsec : addSec t.sec (Int.tdiv d 1000000000 - 1) =
          t.sec + (Int.tdiv d 1000000000 - 1) :=
        addSec_exact (by unfold isInt64 minInt64 maxInt64; omega)
      simp only [if_neg h1, if_pos h2, hsec, Time.nanos, Time.Valid]
      refine ⟨by omega, ?_, by omega, by omega⟩
      unfold isInt64 minInt64 maxInt64
      omega
    · have hsec : addSec t.sec (Int.tdiv d 1000000000) =
          t.sec + Int.tdiv d 1000000000 :=
        addSec_exact (by unfold isInt64 minInt64 maxInt64; omega)
      simp only [if_neg h1, if_neg h2, hsec, Time.nanos, Time.Valid]
      refine ⟨by omega, ?_, by omega, by omega⟩
      unfold isInt64 minInt64 maxInt64
      omega

theorem epoch_eq : epoch = { sec := 62135596800, nsec := 0 } := by
  decide

theorem Time.Unix_exact {t : Time} (hs : isInt64 t.sec)
    (hlo : minInt64 + unixToInternal ≤ t.sec) : t.Unix = t.sec - unixToInternal := by
  unfold Time.Unix
  apply wrap64_of_isInt64
  unfold isInt64 minInt64 maxInt64 unixToInternal at *
  omega

theorem Time.Before_epoch_iff {t : Time} (hn : 0 ≤ t.nsec) :
    t.Before epoch = true ↔ t.sec < unixToInternal := by
  rw [epoch_eq]
  unfold Time.Before unixToInternal
  simp only [Bool.or_eq_true, Bool.and_eq_true, decide_eq_true_eq]
  omega

theorem toUint64_of_nonneg {x : Int} (h0 : 0 ≤ x) (h1 : x ≤ maxInt64) :
    (toUint64 x : Int) = x := by
  unfold toUint64
  unfold maxInt64 at h1
  rw [Int.toNat_of_nonneg (Int.emod_nonneg x (by decide))]
  omega

theorem MaxTime_eq : MaxTime = { sec := 9223372036854775807, nsec := 0 } := by
  decide

theorem Time.Before_iff_nanos {t u : Time} (ht : t.Valid) (hu : u.Valid) :
    t.Before u = true ↔ t.nanos < u.nanos := by
  obtain ⟨-, ht0, ht1⟩ := ht
  obtain ⟨-, hu0, hu1⟩ := hu
  unfold Time.Before Time.nanos
  simp only [Bool.or_eq_true, Bool.and_eq_true, decide_eq_true_eq]
  omega

/-! ## Lemmas on the state machine -/

theorem AddOffset_cases (o d : Int) :
    ((AddOffset o d).err = none ∧ (AddOffset o d).value = (AddOffset o d).offset) ∨
    (∃ m, (AddOffset o d).err = some m ∧ (AddOffset o d).offset = o) := by
  unfold AddOffset
  split
  · exact Or.inr ⟨errNegative, rfl, rfl⟩
  · split
    · exact Or.inr ⟨errOverflow, rfl, rfl⟩
    · exact Or.inl ⟨rfl, rfl⟩

theorem step_clocks_of_not_repins (w : World) (s : Time) (i : Nat) (call : Call)
    (h : call.repins i = false) : (step w s call).2.clocks i = w.clocks i := by
  cases call with
  | Set j t =>
    have hj : ¬ i = j := fun e => by simp [Call.repins, e] at h
    simp [step, World.setClock, hj]
  | Sync j =>
    have hj : ¬ i = j := fun e => by simp [Call.repins, e] at h
    simp [step, World.setClock, hj]
  | AddOffset d => rfl
  | Now => rfl
  | NowWithOffset => rfl
  | Time j => rfl
  | Unix j => rfl

theorem exec_clocks_of_not_repins (i : Nat) :
    ∀ (es : List (Time × Call)) (w : World),
      (∀ e ∈ es, e.2.repins i = false) → (exec w es).clocks i = w.clocks i := by
  intro es
  induction es with
  | nil => intro w _; rfl
  | cons e es ih =>
    intro w h
    have he := h e (List.mem_cons_self e es)
    have hes : ∀ x ∈ es, x.2.repins i = false := fun x hx => h x (List.mem_cons_of_mem e hx)
    show (exec (step w e.1 e.2).2 es).clocks i = w.clocks i
    rw [ih _ hes, step_clocks_of_not_repins w e.1 i e.2 he]

theorem exec_offset_eq_lastAddOffset :
    ∀ (es : List (Time × Call)) (w : World),
      (exec w es).offset = lastAddOffset w.offset (trace w es) := by
  intro es
  induction es with
  | nil => intro w; rfl
  | cons e es ih =>
    intro w
    obtain ⟨s, call⟩ := e
    show (exec (step w s call).2 es).offset =
      lastAddOffset w.offset ((step w s call).1 :: trace (step w s call).2 es)
    rw [ih]
    cases call with
    | AddOffset d =>
      show lastAddOffset (AddOffset w.offset d).offset _ =
        lastAddOffset w.offset
          (Ret.durationErr (AddOffset w.offset d).value (AddOffset w.offset d).err :: _)
      rcases AddOffset_cases w.offset d with ⟨he, hv⟩ | ⟨m, he, ho⟩
      · rw [he, ← hv]; rfl
      · rw [he, ho]; rfl
    | Now => rfl
    | NowWithOffset => rfl
    | Set j t => rfl
    | Sync j => rfl
    | Time j => rfl
    | Unix j => rfl

/-! ## Claims on `AddOffset` -/

/-- C1: for an offset `o` and a duration `d ≥ 0` whose exact sum `o + d` does
not exceed the largest duration, `AddOffset(d)` returns `(o + d, nil)` and the
global offset afterwards is `o + d`. -/
theorem AddOffset_success (o d : Int) (ho : isInt64 o) (hd : 0 ≤ d)
    (hsum : o + d ≤ maxInt64) :
    AddOffset o d = { value := o + d, err := none, offset := o + d } := by
  have hfit : isInt64 (o + d) := by
    unfold isInt64 minInt64 maxInt64 at *
    omega
  exact AddOffset_of_fits hd hfit

theorem AddOffset_success_witness :
    AddOffset 7 5000000000 = { value := 5000000007, err := none, offset := 5000000007 } :=
  AddOffset_success 7 5000000000 (by decide) (by decide) (by decide)

/-- C2: for an offset `o` and a negative duration `d`, `AddOffset(d)` returns
the zero duration with the negative-duration error, leaves the global offset
at `o`, and the error is not the overflow error. -/
theorem AddOffset_negative (o d : Int) (hd : d < 0) :
    (AddOffset o d).value = 0 ∧
    (AddOffset o d).err = some errNegative ∧
    (AddOffset o d).offset = o ∧
    (AddOffset o d).err ≠ some errOverflow := by
  have h : AddOffset o d = { value := 0, err := some errNegative, offset := o } := by
    unfold AddOffset
    rw [if_pos hd]
  rw [h]
  exact ⟨rfl, rfl, rfl, errNegative_ne_errOverflow⟩

theorem AddOffset_negative_witness :
    (AddOffset 5000000000 (-1000000000)).value = 0 ∧
    (AddOffset 5000000000 (-1000000000)).err = some errNegative ∧
    (AddOffset 5000000000 (-1000000000)).offset = 5000000000 ∧
    (AddOffset 5000000000 (-1000000000)).err ≠ some errOverflow :=
  AddOffset_negative 5000000000 (-1000000000) (by decide)

/-- C3: for an `int64` offset `o` and an `int64` duration `d ≥ 0`, the wrapped
comparison `offset+d < offset` holds exactly when the exact sum `o + d`
exceeds `2^63 - 1`, and `AddOffset(d)` returns the overflow error exactly
then; in that case the value is the zero duration and the offset is still
`o`, otherwise the stored offset is the exact sum. -/
theorem AddOffset_overflow_iff (o d : Int) (ho : isInt64 o) (hd : 0 ≤ d)
    (hd64 : isInt64 d) :
    (wrap64 (o + d) < o ↔ maxInt64 < o + d) ∧
    ((AddOffset o d).err = some errOverflow ↔ maxInt64 < o + d) ∧
    (maxInt64 < o + d → (AddOffset o d).value = 0 ∧ (AddOffset o d).offset = o) ∧
    (¬ maxInt64 < o + d →
      (AddOffset o d).err = none ∧ (AddOffset o d).value = o + d ∧
      (AddOffset o d).offset = o + d) := by
  have hcmp : wrap64 (o + d) < o ↔ maxInt64 < o + d := by
    unfold isInt64 minInt64 maxInt64 at ho hd64
    unfold wrap64 maxInt64
    omega
  have hnd : ¬ d < 0 := by omega
  by_cases hov : maxInt64 < o + d
  · have hw : wrap64 (o + d) < o := hcmp.mpr hov
    have h : AddOffset o d = { value := 0, err := some errOverflow, offset := o } := by
      unfold AddOffset
      rw [if_neg hnd, if_pos hw]
    rw [h]
    exact ⟨hcmp, ⟨fun _ => hov, fun _ => rfl⟩, fun _ => ⟨rfl, rfl⟩, fun hn => absurd hov hn⟩
  · have hfit : isInt64 (o + d) := by
      unfold isInt64 minInt64 maxInt64 at *
      omega
    have h := AddOffset_of_fits hd hfit
    rw [h]
    refine ⟨hcmp, ⟨fun he => ?_, fun hp => absurd hp hov⟩, fun hp => absurd hp hov,
      fun _ => ⟨rfl, rfl, rfl⟩⟩
    exact Option.noConfusion he

theorem AddOffset_overflow_iff_witness :
    (wrap64 (9223372036854775000 + 1000) < 9223372036854775000 ↔
      maxInt64 < 9223372036854775000 + 1000) ∧
    ((AddOffset 9223372036854775000 1000).err = some errOverflow ↔
      maxInt64 < 9223372036854775000 + 1000) ∧
    (maxInt64 < 9223372036854775000 + 1000 →
      (AddOffset 9223372036854775000 1000).value = 0 ∧
      (AddOffset 9223372036854775000 1000).offset = 9223372036854775000) ∧
    (¬ maxInt64 < 9223372036854775000 + 1000 →
      (AddOffset 9223372036854775000 1000).err = none ∧
      (AddOffset 9223372036854775000 1000).value = 9223372036854775000 + 1000 ∧
      (AddOffset 9223372036854775000 1000).offset = 9223372036854775000 + 1000) :=
  AddOffset_overflow_iff 9223372036854775000 1000 (by decide) (by decide) (by decide)

/-- C4: the global offset is never negative and never decreases: after any
finite sequence of `AddOffset` calls from the initial offset `0`, whatever the
arguments, the offset is `≥ 0`, and a single `AddOffset` call from any offset
leaves the offset at least what it was. -/
theorem offset_monotone :
    (∀ ds : List Int, 0 ≤ runAddOffset 0 ds) ∧
    (∀ o d : Int, o ≤ (AddOffset o d).offset) :=
  ⟨fun ds => runAddOffset_ge ds 0, AddOffset_offset_ge⟩

/-- C5: additivity. For an offset `o` reached from the initial state by
`AddOffset` calls and `int64` durations `d1 ≥ 0`, `d2 ≥ 0` with
`o + d1 + d2` at most the largest duration, `AddOffset(d1)` then
`AddOffset(d2)` both succeed and end with the same offset and the same
returned value as the single call `AddOffset(d1 + d2)`, namely
`o + d1 + d2`; the caller's `int64` sum `d1 + d2` does not wrap. -/
theorem AddOffset_additive (ds : List Int) (o d1 d2 : Int)
    (ho : o = runAddOffset 0 ds) (h1 : 0 ≤ d1) (h2 : 0 ≤ d2)
    (hsum : o + d1 + d2 ≤ maxInt64) :
    (AddOffset o d1).err = none ∧
    (AddOffset (AddOffset o d1).offset d2).err = none ∧
    (AddOffset (AddOffset o d1).offset d2).offset = o + d1 + d2 ∧
    (AddOffset (AddOffset o d1).offset d2).value = o + d1 + d2 ∧
    wrap64 (d1 + d2) = d1 + d2 ∧
    AddOffset o (wrap64 (d1 + d2)) =
      { value := o + d1 + d2, err := none, offset := o + d1 + d2 } := by
  have ho0 : 0 ≤ o := ho ▸ runAddOffset_ge ds 0
  have hw : wrap64 (d1 + d2) = d1 + d2 := by
    apply wrap64_of_isInt64
    unfold isInt64 minInt64
    unfold maxInt64 at hsum ⊢
    omega
  have ho1 : isInt64 (o + d1) := by
    unfold isInt64 minInt64
    unfold maxInt64 at hsum ⊢
    omega
  have ho2 : isInt64 (o + d1 + d2) := by
    unfold isInt64 minInt64
    unfold maxInt64 at hsum ⊢
    omega
  have e1 := AddOffset_of_fits h1 ho1
  have e2 := AddOffset_of_fits h2 ho2
  have e3 : AddOffset o (d1 + d2) =
      { value := o + (d1 + d2), err := none, offset := o + (d1 + d2) } :=
    AddOffset_of_fits (by omega) (by rw [← add_assoc]; exact ho2)
  rw [hw, e1]
  show none = none ∧ (AddOffset (o + d1) d2).err = none ∧
    (AddOffset (o + d1) d2).offset = o + d1 + d2 ∧
    (AddOffset (o + d1) d2).value = o + d1 + d2 ∧ d1 + d2 = d1 + d2 ∧ _
  rw [e2, e3]
  refine ⟨rfl, rfl, rfl, rfl, rfl, ?_⟩
  rw [add_assoc]

theorem AddOffset_additive_witness :
    (AddOffset 5 7).err = none ∧
    (AddOffset (AddOffset 5 7).offset 11).err = none ∧
    (AddOffset (AddOffset 5 7).offset 11).offset = 5 + 7 + 11 ∧
    (AddOffset (AddOffset 5 7).offset 11).value = 5 + 7 + 11 ∧
    wrap64 (7 + 11) = 7 + 11 ∧
    AddOffset 5 (wrap64 (7 + 11)) =
      { value := 5 + 7 + 11, err := none, offset := 5 + 7 + 11 } :=
  AddOffset_additive [2, -4, 3] 5 7 11 (by decide) (by decide) (by decide) (by decide)

/-! ## Claims on `Clock`, `Now` and `NowWithOffset` -/

/-- C6: after `c.Set(t)`, from any prior state of the clock and of the
program, `c.Time()` returns exactly `t` for every system-clock reading and
every global offset, also after any sequence of intervening calls
(`AddOffset`, `Now`, `NowWithOffset`, reads of any clock, `Set` and `Sync` of
other clocks) that contains no `Sync` or `Set` of `c`. -/
theorem Set_pins_Time (w : World) (i : Nat) (t s0 : Time)
    (es : List (Time × Call)) (hes : ∀ e ∈ es, e.2.repins i = false)
    (sysNow : Time) :
    (exec (step w s0 (.Set i t)).2 es).clocks i = { faked := true, time := t } ∧
    (step (exec (step w s0 (.Set i t)).2 es) sysNow (.Time i)).1 = .instant t ∧
    (∀ (c : Clock) (offset : Int), (c.Set t).Time sysNow offset = t) := by
  have hc : (exec (step w s0 (.Set i t)).2 es).clocks i = { faked := true, time := t } := by
    rw [exec_clocks_of_not_repins i es _ hes]
    simp [step, World.setClock, Clock.Set]
  refine ⟨hc, ?_, fun c offset => rfl⟩
  show Ret.instant (((exec (step w s0 (.Set i t)).2 es).clocks i).Time sysNow _) = _
  rw [hc]
  rfl

theorem Set_pins_Time_witness :
    (exec (step World.init epoch (.Set 0 (time.Unix 100 0))).2
      [(time.Unix 1 0, .AddOffset 5000000000), (time.Unix 2 0, .Time 0),
       (time.Unix 3 0, .Unix 0), (time.Unix 4 0, .Now),
       (time.Unix 5 0, .Set 1 (time.Unix 7 0)), (time.Unix 6 0, .Sync 1)]).clocks 0 =
      { faked := true, time := time.Unix 100 0 } ∧
    (step (exec (step World.init epoch (.Set 0 (time.Unix 100 0))).2
      [(time.Unix 1 0, .AddOffset 5000000000), (time.Unix 2 0, .Time 0),
       (time.Unix 3 0, .Unix 0), (time.Unix 4 0, .Now),
       (time.Unix 5 0, .Set 1 (time.Unix 7 0)), (time.Unix 6 0, .Sync 1)])
      (time.Unix 9 0) (.Time 0)).1 = .instant (time.Unix 100 0) ∧
    (∀ (c : Clock) (offset : Int),
      (c.Set (time.Unix 100 0)).Time (time.Unix 9 0) offset = time.Unix 100 0) :=
  Set_pins_Time World.init 0 (time.Unix 100 0) epoch
    [(time.Unix 1 0, .AddOffset 5000000000), (time.Unix 2 0, .Time 0),
     (time.Unix 3 0, .Unix 0), (time.Unix 4 0, .Now),
     (time.Unix 5 0, .Set 1 (time.Unix 7 0)), (time.Unix 6 0, .Sync 1)]
    (by decide) (time.Unix 9 0)

/-- C7: after `c.Sync()`, from any prior state of the clock (in particular
one pinned by `Set(t)` for any `t`), `c.Time()` returns the system-clock
reading plus the current global offset, the value `Now()` returns for that
reading; the instant stored by an earlier `Set` plays no part. This also holds
after intervening calls that contain no `Set` or `Sync` of `c`. -/
theorem Sync_tracks_Now (w : World) (i : Nat) (s0 : Time)
    (es : List (Time × Call)) (hes : ∀ e ∈ es, e.2.repins i = false)
    (sysNow : Time) :
    (step (exec (step w s0 (.Sync i)).2 es) sysNow (.Time i)).1 =
      .instant (sysNow.Add (exec (step w s0 (.Sync i)).2 es).offset) ∧
    (step (exec (step w s0 (.Sync i)).2 es) sysNow (.Time i)).1 =
      (step (exec (step w s0 (.Sync i)).2 es) sysNow .Now).1 ∧
    (∀ (c : Clock) (t : Time) (offset : Int),
      c.Sync.Time sysNow offset = Now sysNow offset ∧
      (c.Set t).Sync.Time sysNow offset = Now sysNow offset) := by
  have hc : ((exec (step w s0 (.Sync i)).2 es).clocks i).faked = false := by
    rw [exec_clocks_of_not_repins i es _ hes]
    simp [step, World.setClock, Clock.Sync]
  have ht : (step (exec (step w s0 (.Sync i)).2 es) sysNow (.Time i)).1 =
      .instant (sysNow.Add (exec (step w s0 (.Sync i)).2 es).offset) := by
    show Ret.instant (((exec (step w s0 (.Sync i)).2 es).clocks i).Time sysNow _) = _
    unfold Clock.Time
    rw [hc]
    rfl
  exact ⟨ht, ht, fun c t offset => ⟨rfl, rfl⟩⟩

theorem Sync_tracks_Now_witness :
    (step (exec (step (step World.init epoch (.Set 0 (time.Unix 100 0))).2
        (time.Unix 1 0) (.Sync 0)).2 [(time.Unix 2 0, .AddOffset 5000000000)])
      (time.Unix 3 0) (.Time 0)).1 =
      .instant ((time.Unix 3 0).Add (exec (step (step World.init epoch
        (.Set 0 (time.Unix 100 0))).2 (time.Unix 1 0) (.Sync 0)).2
        [(time.Unix 2 0, .AddOffset 5000000000)]).offset) ∧
    (step (exec (step (step World.init epoch (.Set 0 (time.Unix 100 0))).2
        (time.Unix 1 0) (.Sync 0)).2 [(time.Unix 2 0, .AddOffset 5000000000)])
      (time.Unix 3 0) (.Time 0)).1 =
      (step (exec (step (step World.init epoch (.Set 0 (time.Unix 100 0))).2
        (time.Unix 1 0) (.Sync 0)).2 [(time.Unix 2 0, .AddOffset 5000000000)])
      (time.Unix 3 0) .Now).1 ∧
    (∀ (c : Clock) (t : Time) (offset : Int),
      c.Sync.Time (time.Unix 3 0) offset = Now (time.Unix 3 0) offset ∧
      (c.Set t).Sync.Time (time.Unix 3 0) offset = Now (time.Unix 3 0) offset) :=
  Sync_tracks_Now (step World.init epoch (.Set 0 (time.Unix 100 0))).2 0 (time.Unix 1 0)
    [(time.Unix 2 0, .AddOffset 5000000000)] (by decide) (time.Unix 3 0)

/-- C8, as stated, fails far in the past: the instant one second before
`time.Unix(math.MinInt64, 0)` is a well-formed `time.Time` strictly before the
epoch, yet a clock pinned to it returns `2^63 - 1` from `Unix()`, not `0`,
because `Time.Unix` wraps there. -/
theorem Clock_Unix_far_past :
    ((time.Unix minInt64 0).Add (-1000000000)).Valid ∧
    ((time.Unix minInt64 0).Add (-1000000000)).Before epoch = true ∧
    (Clock.zero.Set ((time.Unix minInt64 0).Add (-1000000000))).Unix epoch 0 =
      9223372036854775807 ∧
    ¬ (((Clock.zero.Set ((time.Unix minInt64 0).Add (-1000000000))).Time epoch 0).Before
        epoch = true →
      (Clock.zero.Set ((time.Unix minInt64 0).Add (-1000000000))).Unix epoch 0 = 0) := by
  decide

/-- C8, amended: for every clock (pinned or live) whose `Time()` is a
well-formed instant not earlier than Unix second `-2^63` (its second count
since year 1 is at least `-2^63 + 62135596800`), `c.Unix()` is `0` whenever
`c.Time()` is strictly before the epoch, and otherwise is the whole number of
seconds from the epoch to `c.Time()`, equal to the signed `Time().Unix()` and
below `2^64`. A clock pinned to epoch second `0` gives `0`, and so does one
pinned to 100 seconds before the epoch. -/
theorem Clock_Unix_clamped (c : Clock) (sysNow : Time) (offset : Int)
    (hv : (c.Time sysNow offset).Valid)
    (hlo : minInt64 + unixToInternal ≤ (c.Time sysNow offset).sec) :
    ((c.Time sysNow offset).Before epoch = true → c.Unix sysNow offset = 0) ∧
    ((c.Time sysNow offset).Before epoch = false →
      (c.Unix sysNow offset : Int) =
        ((c.Time sysNow offset).nanos - epoch.nanos) / 1000000000 ∧
      (c.Unix sysNow offset : Int) = (c.Time sysNow offset).Unix ∧
      c.Unix sysNow offset < 18446744073709551616) ∧
    (Clock.zero.Set (time.Unix 0 0)).Unix sysNow offset = 0 ∧
    (Clock.zero.Set (time.Unix (-100) 0)).Unix sysNow offset = 0 := by
  obtain ⟨hs, hn0, hn1⟩ := hv
  have hu := Time.Unix_exact hs hlo
  have hb := Time.Before_epoch_iff hn0
  have hdef : c.Unix sysNow offset =
      toUint64 (if (c.Time sysNow offset).Unix < 0 then 0 else (c.Time sysNow offset).Unix) :=
    rfl
  refine ⟨fun h => ?_, fun h => ?_,
    show (Clock.zero.Set (time.Unix 0 0)).Unix epoch 0 = 0 by decide,
    show (Clock.zero.Set (time.Unix (-100) 0)).Unix epoch 0 = 0 by decide⟩
  · have hlt : (c.Time sysNow offset).Unix < 0 := by
      have := hb.mp h
      unfold unixToInternal at hu this
      omega
    rw [hdef, if_pos hlt]
    decide
  · have hge : ¬ (c.Time sysNow offset).sec < unixToInternal := fun hh => by
      rw [hb.mpr hh] at h
      exact Bool.noConfusion h
    have hnl : ¬ (c.Time sysNow offset).Unix < 0 := by
      unfold unixToInternal at hu hge
      omega
    have hs' := hs
    unfold isInt64 minInt64 maxInt64 at hs'
    have hcast : (c.Unix sysNow offset : Int) = (c.Time sysNow offset).Unix := by
      rw [hdef, if_neg hnl]
      apply toUint64_of_nonneg (by omega)
      unfold maxInt64
      unfold unixToInternal at hu
      omega
    refine ⟨?_, hcast, ?_⟩
    · rw [hcast, hu, epoch_eq]
      unfold Time.nanos unixToInternal
      simp only []
      omega
    · have : (c.Unix sysNow offset : Int) < 18446744073709551616 := by
        rw [hcast, hu]
        unfold unixToInternal
        omega
      exact_mod_cast this

theorem Clock_Unix_clamped_witness :
    (((Clock.zero.Set (time.Unix 1700000000 5)).Time epoch 0).Before epoch = true →
      (Clock.zero.Set (time.Unix 1700000000 5)).Unix epoch 0 = 0) ∧
    (((Clock.zero.Set (time.Unix 1700000000 5)).Time epoch 0).Before epoch = false →
      ((Clock.zero.Set (time.Unix 1700000000 5)).Unix epoch 0 : Int) =
        (((Clock.zero.Set (time.Unix 1700000000 5)).Time epoch 0).nanos - epoch.nanos) /
          1000000000 ∧
      ((Clock.zero.Set (time.Unix 1700000000 5)).Unix epoch 0 : Int) =
        ((Clock.zero.Set (time.Unix 1700000000 5)).Time epoch 0).Unix ∧
      (Clock.zero.Set (time.Unix 1700000000 5)).Unix epoch 0 < 18446744073709551616) ∧
    (Clock.zero.Set (time.Unix 0 0)).Unix epoch 0 = 0 ∧
    (Clock.zero.Set (time.Unix (-100) 0)).Unix epoch 0 = 0 :=
  Clock_Unix_clamped (Clock.zero.Set (time.Unix 1700000000 5)) epoch 0
    (by decide) (by decide)

/-- C9: the clock is a two-state machine that starts live. A zero-value
`Clock` is not faked and, as long as neither `Set` nor `Sync` has been called
on it, `Time()` returns the system-clock reading plus the current global
offset; `Set` leaves the clock pinned and `Sync` leaves it live, from either
state, and both return nothing (there is no error result). -/
theorem Clock_two_state (c : Clock) (t sysNow : Time) (offset : Int)
    (es : List (Time × Call)) (i : Nat) (hes : ∀ e ∈ es, e.2.repins i = false) :
    Clock.zero.faked = false ∧
    Clock.zero.Time sysNow offset = sysNow.Add offset ∧
    (step (exec World.init es) sysNow (.Time i)).1 =
      .instant (sysNow.Add (exec World.init es).offset) ∧
    (c.Set t).faked = true ∧
    c.Sync.faked = false ∧
    (∀ w : World,
      (step w sysNow (.Set i t)).1 = .unit ∧
      ((step w sysNow (.Set i t)).2.clocks i).faked = true ∧
      (step w sysNow (.Sync i)).1 = .unit ∧
      ((step w sysNow (.Sync i)).2.clocks i).faked = false) := by
  have hc : (exec World.init es).clocks i = Clock.zero := by
    rw [exec_clocks_of_not_repins i es _ hes]
    rfl
  refine ⟨rfl, rfl, ?_, rfl, rfl, fun w => ⟨rfl, ?_, rfl, ?_⟩⟩
  · show Ret.instant (((exec World.init es).clocks i).Time sysNow _) = _
    rw [hc]
    rfl
  · simp [step, World.setClock, Clock.Set]
  · simp [step, World.setClock, Clock.Sync]

theorem Clock_two_state_witness :
    Clock.zero.faked = false ∧
    Clock.zero.Time (time.Unix 9 0) 5000000000 = (time.Unix 9 0).Add 5000000000 ∧
    (step (exec World.init [(time.Unix 1 0, .AddOffset 5000000000),
        (time.Unix 2 0, .Set 1 (time.Unix 7 0)), (time.Unix 3 0, .Unix 0)])
      (time.Unix 9 0) (.Time 0)).1 =
      .instant ((time.Unix 9 0).Add (exec World.init
        [(time.Unix 1 0, .AddOffset 5000000000),
         (time.Unix 2 0, .Set 1 (time.Unix 7 0)), (time.Unix 3 0, .Unix 0)]).offset) ∧
    ((Clock.zero.Set (time.Unix 7 0)).Set (time.Unix 100 0)).faked = true ∧
    (Clock.zero.Set (time.Unix 7 0)).Sync.faked = false ∧
    (∀ w : World,
      (step w (time.Unix 9 0) (.Set 0 (time.Unix 100 0))).1 = .unit ∧
      ((step w (time.Unix 9 0) (.Set 0 (time.Unix 100 0))).2.clocks 0).faked = true ∧
      (step w (time.Unix 9 0) (.Sync 0)).1 = .unit ∧
      ((step w (time.Unix 9 0) (.Sync 0)).2.clocks 0).faked = false) :=
  Clock_two_state (Clock.zero.Set (time.Unix 7 0)) (time.Unix 100 0) (time.Unix 9 0)
    5000000000
    [(time.Unix 1 0, .AddOffset 5000000000), (time.Unix 2 0, .Set 1 (time.Unix 7 0)),
     (time.Unix 3 0, .Unix 0)]
    0 (by decide)

/-- C10: for a system-clock reading `s` and a global offset `o`, `Now()`
returns `s.Add(o)`, which, whenever the shifted instant is representable, is
the well-formed instant exactly `o` nanoseconds after `s`; `NowWithOffset()`
returns the pair of that same instant and `o`. Neither call changes the global
offset, and after any sequence of calls from process start the second
component equals the value returned by the most recent successful `AddOffset`,
or `0` if there was none. -/
theorem Now_shifts_by_offset (s : Time) (o : Int) :
    Now s o = s.Add o ∧
    (s.Valid → minInt64 * 1000000000 ≤ s.nanos + o →
      s.nanos + o ≤ maxInt64 * 1000000000 + 999999999 →
      (Now s o).nanos = s.nanos + o ∧ (Now s o).Valid) ∧
    NowWithOffset s o = (Now s o, o) ∧
    (∀ w : World,
      (step w s .Now).1 = .instant (Now s w.offset) ∧
      (step w s .NowWithOffset).1 = .instantDuration (Now s w.offset) w.offset ∧
      (step w s .Now).2.offset = w.offset ∧
      (step w s .NowWithOffset).2.offset = w.offset) ∧
    (∀ es : List (Time × Call),
      (NowWithOffset s (exec World.init es).offset).2 =
        lastAddOffset 0 (trace World.init es)) :=
  ⟨rfl, fun hs hlo hhi => Time.Add_nanos s o hs hlo hhi, rfl,
    fun _ => ⟨rfl, rfl, rfl, rfl⟩,
    fun es => exec_offset_eq_lastAddOffset es World.init⟩

theorem Now_shifts_by_offset_witness :
    (time.Unix 1700000000 999999999).Valid ∧
    minInt64 * 1000000000 ≤ (time.Unix 1700000000 999999999).nanos + 5000000001 ∧
    (time.Unix 1700000000 999999999).nanos + 5000000001 ≤
      maxInt64 * 1000000000 + 999999999 ∧
    (Now (time.Unix 1700000000 999999999) 5000000001).nanos =
      (time.Unix 1700000000 999999999).nanos + 5000000001 ∧
    (Now (time.Unix 1700000000 999999999) 5000000001).Valid ∧
    NowWithOffset (time.Unix 1700000000 999999999) 5000000001 =
      (Now (time.Unix 1700000000 999999999) 5000000001, 5000000001) :=
  ⟨by decide, by decide, by decide,
    ((Now_shifts_by_offset (time.Unix 1700000000 999999999) 5000000001).2.1
      (by decide) (by decide) (by decide)).1,
    ((Now_shifts_by_offset (time.Unix 1700000000 999999999) 5000000001).2.1
      (by decide) (by decide) (by decide)).2,
    (Now_shifts_by_offset (time.Unix 1700000000 999999999) 5000000001).2.2.1⟩

/-! ## Claims on `MaxTime`, ordering of reads and frame conditions -/

/-- C11, as stated, fails: `time.Unix(1<<63-62135596801, 1)` is a well-formed
instant in the last representable second, one nanosecond after `MaxTime`. -/
theorem MaxTime_not_largest :
    (time.Unix (9223372036854775808 - 62135596801) 1).Valid ∧
    (time.Unix (9223372036854775808 - 62135596801) 1).After MaxTime = true ∧
    ¬ (∀ t : Time, t.Valid → t.After MaxTime = false) := by
  refine ⟨by decide, by decide, fun h => ?_⟩
  have h1 := h (time.Unix (9223372036854775808 - 62135596801) 1) (by decide)
  exact absurd h1 (by decide)

/-- C11, amended: `MaxTime` is the instant at Unix second `2^63 - 62135596801`
with nanosecond `0`; it is well-formed and carries the largest representable
second count, `2^63 - 1` seconds since year 1. For every representable instant
`t`, `t` with its nanosecond part dropped is not after `MaxTime`, a `t` whose
nanosecond part is zero is not after `MaxTime`, and `t` is after `MaxTime`
only when it lies in the second of `MaxTime` with a non-zero nanosecond
part. -/
theorem MaxTime_largest_second (t : Time) (ht : t.Valid) :
    MaxTime.Valid ∧
    MaxTime.Unix = 9223372036854775808 - 62135596801 ∧
    MaxTime.nsec = 0 ∧
    MaxTime.sec = maxInt64 ∧
    t.sec ≤ MaxTime.sec ∧
    ({ sec := t.sec, nsec := 0 } : Time).After MaxTime = false ∧
    (t.nsec = 0 → t.After MaxTime = false) ∧
    (t.After MaxTime = true → t.sec = MaxTime.sec ∧ 0 < t.nsec) := by
  obtain ⟨hs, hn0, hn1⟩ := ht
  unfold isInt64 minInt64 maxInt64 at hs
  have hafter : ∀ u : Time, u.After MaxTime = true ↔
      (u.sec > 9223372036854775807 ∨ (u.sec = 9223372036854775807 ∧ u.nsec > 0)) := by
    intro u
    rw [MaxTime_eq]
    unfold Time.After
    simp only [Bool.or_eq_true, Bool.and_eq_true, decide_eq_true_eq]
  refine ⟨by decide, by decide, by decide, by decide, ?_, ?_, fun h0 => ?_, fun ha => ?_⟩
  · rw [MaxTime_eq]
    exact hs.2
  · apply Bool.eq_false_iff.mpr
    intro ha
    rcases (hafter _).mp ha with h | ⟨-, h⟩
    · have h' : t.sec > 9223372036854775807 := h
      omega
    · exact absurd h (lt_irrefl (0 : Int))
  · apply Bool.eq_false_iff.mpr
    intro ha
    rcases (hafter _).mp ha with h | ⟨-, h⟩
    · omega
    · omega
  · rw [MaxTime_eq]
    rcases (hafter _).mp ha with h | ⟨h, h'⟩
    · omega
    · exact ⟨h, h'⟩

theorem MaxTime_largest_second_witness :
    (time.Unix 1700000000 5).Valid ∧
    (time.Unix 1700000000 5).sec ≤ MaxTime.sec ∧
    ({ sec := (time.Unix 1700000000 5).sec, nsec := 0 } : Time).After MaxTime = false :=
  ⟨by decide,
    (MaxTime_largest_second (time.Unix 1700000000 5) (by decide)).2.2.2.2.1,
    (MaxTime_largest_second (time.Unix 1700000000 5) (by decide)).2.2.2.2.2.1⟩

/-- C13: live time does not go back because of offset changes. For
well-formed system-clock readings `s1 ≤ s2`, an offset reached from process
start by any `AddOffset` calls, and any further `AddOffset` calls (successful
or failing) made between the two reads, `Now()` read at `s2` is not before
`Now()` read at `s1`, provided both shifted instants are representable; each
read is then exactly the reading plus the offset of that moment. From offset
`0`, `AddOffset(5s)` returns `5s`. -/
theorem Now_never_goes_back (s1 s2 : Time) (ds0 ds : List Int)
    (h1 : s1.Valid) (h2 : s2.Valid) (hle : s2.Before s1 = false)
    (hr1 : s1.nanos + runAddOffset 0 ds0 ≤ maxInt64 * 1000000000 + 999999999)
    (hr2 : s2.nanos + runAddOffset (runAddOffset 0 ds0) ds ≤
      maxInt64 * 1000000000 + 999999999) :
    (Now s2 (runAddOffset (runAddOffset 0 ds0) ds)).Before
      (Now s1 (runAddOffset 0 ds0)) = false ∧
    (Now s1 (runAddOffset 0 ds0)).nanos = s1.nanos + runAddOffset 0 ds0 ∧
    (Now s2 (runAddOffset (runAddOffset 0 ds0) ds)).nanos =
      s2.nanos + runAddOffset (runAddOffset 0 ds0) ds ∧
    AddOffset 0 5000000000 =
      { value := 5000000000, err := none, offset := 5000000000 } := by
  have ho : 0 ≤ runAddOffset 0 ds0 := runAddOffset_ge ds0 0
  have ho' : runAddOffset 0 ds0 ≤ runAddOffset (runAddOffset 0 ds0) ds :=
    runAddOffset_ge ds _
  have hlo : ∀ s : Time, s.Valid → minInt64 * 1000000000 ≤ s.nanos := by
    intro s hs
    obtain ⟨hs64, hn0, -⟩ := hs
    unfold isInt64 minInt64 maxInt64 at hs64
    unfold minInt64 Time.nanos
    omega
  have hl1 := hlo s1 h1
  have hl2 := hlo s2 h2
  have e1 := Time.Add_nanos s1 (runAddOffset 0 ds0) h1 (by omega) hr1
  have e2 := Time.Add_nanos s2 (runAddOffset (runAddOffset 0 ds0) ds) h2 (by omega) hr2
  have hs12 : ¬ s2.nanos < s1.nanos := fun hlt => by
    rw [(Time.Before_iff_nanos h2 h1).mpr hlt] at hle
    exact Bool.noConfusion hle
  refine ⟨?_, e1.1, e2.1, by decide⟩
  apply Bool.eq_false_iff.mpr
  intro hb
  have hlt := (Time.Before_iff_nanos e2.2 e1.2).mp hb
  have q1 : (s1.Add (runAddOffset 0 ds0)).nanos = s1.nanos + runAddOffset 0 ds0 := e1.1
  have q2 : (s2.Add (runAddOffset (runAddOffset 0 ds0) ds)).nanos =
      s2.nanos + runAddOffset (runAddOffset 0 ds0) ds := e2.1
  unfold Now at hlt
  omega

theorem Now_never_goes_back_witness :
    (Now (time.Unix 1700000000 1) (runAddOffset (runAddOffset 0 [5000000000]) [])).Before
      (Now (time.Unix 1700000000 0) (runAddOffset 0 [5000000000])) = false ∧
    (Now (time.Unix 1700000000 0) (runAddOffset 0 [5000000000])).nanos =
      (time.Unix 1700000000 0).nanos + runAddOffset 0 [5000000000] ∧
    (Now (time.Unix 1700000000 1) (runAddOffset (runAddOffset 0 [5000000000]) [])).nanos =
      (time.Unix 1700000000 1).nanos + runAddOffset (runAddOffset 0 [5000000000]) [] ∧
    AddOffset 0 5000000000 =
      { value := 5000000000, err := none, offset := 5000000000 } :=
  Now_never_goes_back (time.Unix 1700000000 0) (time.Unix 1700000000 1) [5000000000] []
    (by decide) (by decide) (by decide) (by decide) (by decide)

/-- C14: frame conditions. Every call other than `AddOffset` leaves the global
offset as it was, and `Time`, `Unix`, `Now` and `NowWithOffset` leave the whole
state as it was; `Set` and `Sync` on one clock leave every other clock as it
was; `AddOffset` leaves the faked flag and stored instant of every clock as
they were; and a call after which the global offset differs is an `AddOffset`
that returned no error. -/
theorem frame_conditions (w : World) (sysNow : Time) :
    (∀ call : Call, (∀ d, call ≠ .AddOffset d) →
      (step w sysNow call).2.offset = w.offset) ∧
    (∀ i : Nat, (step w sysNow (.Time i)).2 = w ∧ (step w sysNow (.Unix i)).2 = w) ∧
    (step w sysNow .Now).2 = w ∧
    (step w sysNow .NowWithOffset).2 = w ∧
    (∀ (i j : Nat) (t : Time), j ≠ i →
      (step w sysNow (.Set i t)).2.clocks j = w.clocks j ∧
      (step w sysNow (.Sync i)).2.clocks j = w.clocks j) ∧
    (∀ (d : Int) (j : Nat),
      ((step w sysNow (.AddOffset d)).2.clocks j).faked = (w.clocks j).faked ∧
      ((step w sysNow (.AddOffset d)).2.clocks j).time = (w.clocks j).time) ∧
    (∀ call : Call, (step w sysNow call).2.offset ≠ w.offset →
      ∃ d, call = .AddOffset d ∧ (AddOffset w.offset d).err = none ∧
        (step w sysNow call).1 = .durationErr (step w sysNow call).2.offset none) := by
  refine ⟨fun call hc => ?_, fun i => ⟨rfl, rfl⟩, rfl, rfl, fun i j t hji => ?_,
    fun d j => ⟨rfl, rfl⟩, fun call hc => ?_⟩
  · cases call with
    | AddOffset d => exact absurd rfl (hc d)
    | Now => rfl
    | NowWithOffset => rfl
    | Set j t => rfl
    | Sync j => rfl
    | Time j => rfl
    | Unix j => rfl
  · constructor
    · simp [step, World.setClock, hji]
    · simp [step, World.setClock, hji]
  · cases call with
    | AddOffset d =>
      refine ⟨d, rfl, ?_⟩
      have hc' : (AddOffset w.offset d).offset ≠ w.offset := hc
      rcases AddOffset_cases w.offset d with ⟨he, hv⟩ | ⟨m, -, ho⟩
      · refine ⟨he, ?_⟩
        show Ret.durationErr (AddOffset w.offset d).value (AddOffset w.offset d).err =
          Ret.durationErr (AddOffset w.offset d).offset none
        rw [he, hv]
      · exact absurd ho hc'
    | Now => exact absurd rfl hc
    | NowWithOffset => exact absurd rfl hc
    | Set j t => exact absurd rfl hc
    | Sync j => exact absurd rfl hc
    | Time j => exact absurd rfl hc
    | Unix j => exact absurd rfl hc

theorem frame_conditions_witness :
    (step (step World.init epoch (.Set 1 (time.Unix 7 0))).2 epoch
      (.Set 0 (time.Unix 100 0))).2.clocks 1 =
      (step World.init epoch (.Set 1 (time.Unix 7 0))).2.clocks 1 ∧
    (step (step World.init epoch (.Set 1 (time.Unix 7 0))).2 epoch (.Sync 0)).2.clocks 1 =
      (step World.init epoch (.Set 1 (time.Unix 7 0))).2.clocks 1 ∧
    (step (step World.init epoch (.Set 1 (time.Unix 7 0))).2 epoch
      (.Set 0 (time.Unix 100 0))).2.offset =
      (step World.init epoch (.Set 1 (time.Unix 7 0))).2.offset :=
  ⟨((frame_conditions (step World.init epoch (.Set 1 (time.Unix 7 0))).2 epoch).2.2.2.2.1
      0 1 (time.Unix 100 0) (by decide)).1,
    ((frame_conditions (step World.init epoch (.Set 1 (time.Unix 7 0))).2 epoch).2.2.2.2.1
      0 1 (time.Unix 100 0) (by decide)).2,
    (frame_conditions (step World.init epoch (.Set 1 (time.Unix 7 0))).2 epoch).1
      (.Set 0 (time.Unix 100 0)) (fun _ h => Call.noConfusion h)⟩

/-- C15: `AddOffset(0)` is a pure read of the offset. For every offset
reached from process start by `AddOffset` calls, the largest duration
included (it is reached by `AddOffset(2^63 - 1)`), `AddOffset(0)` returns that
offset with no error and leaves it unchanged; and when the offset is the
largest duration, `AddOffset(d)` returns the overflow error, with value `0`
and the offset unchanged, for every duration `d > 0`. -/
theorem AddOffset_zero_reads (ds : List Int) (d : Int) (hd : 0 < d)
    (hd64 : isInt64 d) :
    AddOffset (runAddOffset 0 ds) 0 =
      { value := runAddOffset 0 ds, err := none, offset := runAddOffset 0 ds } ∧
    runAddOffset 0 [maxInt64] = maxInt64 ∧
    AddOffset maxInt64 0 = { value := maxInt64, err := none, offset := maxInt64 } ∧
    AddOffset maxInt64 d = { value := 0, err := some errOverflow, offset := maxInt64 } := by
  have ho : isInt64 (runAddOffset 0 ds) := runAddOffset_isInt64 ds 0 (by decide)
  have e0 := AddOffset_of_fits (le_refl (0 : Int))
    (show isInt64 (runAddOffset 0 ds + 0) by rw [add_zero]; exact ho)
  rw [add_zero] at e0
  have hnd : ¬ d < 0 := by omega
  have hw : wrap64 (maxInt64 + d) < maxInt64 := by
    unfold isInt64 minInt64 maxInt64 at hd64
    unfold wrap64 maxInt64
    omega
  refine ⟨e0, by decide, by decide, ?_⟩
  unfold AddOffset
  rw [if_neg hnd, if_pos hw]

theorem AddOffset_zero_reads_witness :
    AddOffset (runAddOffset 0 [5000000000, -1]) 0 =
      { value := runAddOffset 0 [5000000000, -1], err := none,
        offset := runAddOffset 0 [5000000000, -1] } ∧
    runAddOffset 0 [maxInt64] = maxInt64 ∧
    AddOffset maxInt64 0 = { value := maxInt64, err := none, offset := maxInt64 } ∧
    AddOffset maxInt64 1 = { value := 0, err := some errOverflow, offset := maxInt64 } :=
  AddOffset_zero_reads [5000000000, -1] 1 (by decide) (by decide)

end aclock
